import Mathlib

/-!
Verification of the infotube terminal ticker: a shallow embedding of its
event funnel deadline computation (src/event.rs), display state machine
(src/app.rs), marquee renderer (src/ui.rs, identical to the inlined copy in
src/app.rs), startup text assembly (src/app.rs App::new) and JSON path
extraction (src/json.rs), together with theorems settling the specification
claims about them.

Unicode glyph widths are supplied by the external unicode-width crate in the
source; the embedding abstracts them as a function from characters to
natural-number column widths, instantiated with an ASCII table for concrete
evaluations.
-/

/-! ## Glyph widths -/

/-- Display width of a list of characters under a glyph-width function,
modelling summing `c.width().unwrap_or(0)` over the characters. -/
def listWidth (w : Char → Nat) (cs : List Char) : Nat :=
  (cs.map w).sum

/-- Display width of a string, modelling `UnicodeWidthStr::width`. -/
def strWidth (w : Char → Nat) (s : String) : Nat :=
  listWidth w s.data

/-- A concrete glyph-width table for the ASCII range (control characters have
width zero, printable characters width one), used to evaluate the abstract
development on concrete inputs. -/
def charWidthAscii (c : Char) : Nat :=
  if c.toNat < 32 then 0 else if c.toNat = 127 then 0 else 1

theorem listWidth_append (w : Char → Nat) (a b : List Char) :
    listWidth w (a ++ b) = listWidth w a + listWidth w b := by
  simp [listWidth]

theorem strWidth_append (w : Char → Nat) (a b : String) :
    strWidth w (a ++ b) = strWidth w a + strWidth w b := by
  simp [strWidth, listWidth]

/-! ## Event funnel: tick-rate retuning (src/event.rs, `EventHandler::new`)

When a new tick rate arrives, the spawned clock task computes
`next_target = last_tick + new_duration` and restarts the interval at
`next_target` if it is still in the future, else at `now`. Instants are
modelled as natural numbers (nanoseconds since an arbitrary origin). -/

/-- The deadline at which the retuned clock fires next, translated from the
`tick_speed_rx.recv()` arm of the select loop in `EventHandler::new`. -/
def nextDeadline (last_tick new_interval now : Nat) : Nat :=
  let next_target := last_tick + new_interval
  if next_target > now then next_target else now

/-! ## Display state machine (src/app.rs) -/

/-- The mutable state of `App` (src/app.rs).  `config.scroll_speed_ms` and
`config.show_frame` are the two configuration fields the state machine
mutates, so they are inlined as fields here; the remaining configuration is
irrelevant to state evolution. -/
structure AppState where
  running : Bool
  text : String
  scroll_offset : Nat
  last_known_width : Nat
  interrupt_text : Option String
  interrupt_remaining_ms : Nat
  paused_before_interrupt : Bool
  saved_scroll_offset : Nat
  paused : Bool
  dimmed : Bool
  scroll_speed_ms : Nat
  show_frame : Bool
deriving DecidableEq, Repr

/-- The fixed spacer appended to the content in the marquee branch. -/
def spacer : String := "   ***   "

/-- The countdown prefix shown during an alert: `format!("({}s)  ", seconds)`
with `seconds = ceil(remaining_ms / 1000)`. -/
def countdownPrefix (remaining_ms : Nat) : String :=
  "(" ++ toString ((remaining_ms + 999) / 1000) ++ "s)  "

/-- `App::on_tick` (src/app.rs).  The terminal width probe
`crossterm::terminal::size()` is modelled by passing the observed terminal
width `termW`; the frame-border adjustment happens inside as in the source. -/
def on_tick (w : Char → Nat) (termW : Nat) (s : AppState) : AppState :=
  let width := if s.show_frame then termW - 2 else termW
  let s1 := { s with last_known_width := width }
  match s1.interrupt_text with
  | some t =>
      let elapsed := s1.scroll_speed_ms
      if s1.interrupt_remaining_ms > elapsed then
        let s2 := { s1 with interrupt_remaining_ms := s1.interrupt_remaining_ms - elapsed }
        let display_text := countdownPrefix s2.interrupt_remaining_ms ++ t
        if strWidth w display_text > width then
          { s2 with scroll_offset := s2.scroll_offset + 1 }
        else
          s2
      else
        { s1 with interrupt_text := none,
                  paused := s1.paused_before_interrupt,
                  scroll_offset := s1.saved_scroll_offset }
  | none =>
      if strWidth w s1.text > width then
        { s1 with scroll_offset := s1.scroll_offset + 1 }
      else
        { s1 with scroll_offset := 0 }

/-- The key codes `App::handle_events` distinguishes. -/
inductive KeyCode where
  | quit
  | enter
  | space
  | keyF
  | keyB
  | plus
  | minus
  | other
deriving DecidableEq, Repr

/-- The key-press dispatch of `App::handle_events` (src/app.rs). -/
def handle_key (k : KeyCode) (s : AppState) : AppState :=
  match k with
  | .quit => { s with running := false }
  | .enter =>
      match s.interrupt_text with
      | some _ =>
          { s with interrupt_text := none,
                   paused := s.paused_before_interrupt,
                   scroll_offset := s.saved_scroll_offset }
      | none => s
  | .space => { s with paused := !s.paused }
  | .keyF => { s with show_frame := !s.show_frame }
  | .keyB => { s with dimmed := !s.dimmed }
  | .plus =>
      if s.scroll_speed_ms > 10 then
        { s with scroll_speed_ms := s.scroll_speed_ms - 10 }
      else s
  | .minus =>
      if s.scroll_speed_ms < 2000 then
        { s with scroll_speed_ms := s.scroll_speed_ms + 10 }
      else s
  | .other => s

/-- The `rx.recv()` arm of the select loop in `App::run` (src/app.rs):
arrival of an external message. -/
def handle_message (msg : String) (s : AppState) : AppState :=
  { s with paused_before_interrupt := s.paused,
           saved_scroll_offset := s.scroll_offset,
           paused := false,
           interrupt_text := some msg,
           interrupt_remaining_ms := 9000,
           scroll_offset := 0 }

/-- One event the run loop of `App::run` can observe.  A tick carries the
terminal width observed by `on_tick`'s size probe. -/
inductive AppEvent where
  | tick (termW : Nat)
  | message (msg : String)
  | key (k : KeyCode)
deriving DecidableEq, Repr

/-- One iteration of the select loop in `App::run` (src/app.rs): the timer
arm runs `on_tick` only when not paused; the receiver arm handles a message;
the keyboard arm dispatches on the key. -/
def stepEvent (w : Char → Nat) (e : AppEvent) (s : AppState) : AppState :=
  match e with
  | .tick termW => if s.paused then s else on_tick w termW s
  | .message msg => handle_message msg s
  | .key k => handle_key k s

/-- A run of consecutive tick events with the given observed widths. -/
def applyTicks (w : Char → Nat) (ws : List Nat) (s : AppState) : AppState :=
  ws.foldl (fun s tw => stepEvent w (.tick tw) s) s

/-! ## Startup text assembly (src/app.rs, `App::new`) -/

/-- Separator joining the non-empty trimmed lines of one file. -/
def fileSep : String := "    "

/-- Separator joining the contributions of distinct files. -/
def filesSep : String := "    ***    "

/-- Fallback text when no file yields content. -/
def placeholderText : String := "No data found in source files."

/-- One file's contribution: its lines trimmed, empty lines dropped, joined
by `fileSep`.  Rust `str::lines` differs from splitting on a newline only in
trailing-empty and carriage-return handling, both erased by the subsequent
trim-and-filter. -/
def fileText (content : String) : String :=
  String.intercalate fileSep
    (((content.splitOn "\n").map String.trim).filter (fun l => l ≠ ""))

/-- The loop of `App::new` over `config.source_files`: readable files
contribute their non-empty `fileText`, unreadable files are skipped.  The
file system is modelled as a partial read function from paths to contents. -/
def collectContents (readFile : String → Option String) : List String → List String
  | [] => []
  | p :: ps =>
      match readFile p with
      | some content =>
          let ft := fileText content
          if ft = "" then collectContents readFile ps
          else ft :: collectContents readFile ps
      | none => collectContents readFile ps

/-- The static text computed by `App::new`: file contributions joined by
`filesSep`, with the placeholder substituted when the result is empty. -/
def buildStaticText (readFile : String → Option String) (paths : List String) : String :=
  let text := String.intercalate filesSep (collectContents readFile paths)
  if text = "" then placeholderText else text

/-! ## JSON path extraction (src/json.rs) -/

/-- JSON values, modelling `serde_json::Value` with integer numbers. -/
inductive JVal where
  | null
  | bool (b : Bool)
  | num (n : Int)
  | str (s : String)
  | arr (items : List JVal)
  | obj (fields : List (String × JVal))
deriving Repr

/-- One hexadecimal digit, lower case. -/
def hexDigit (n : Nat) : Char :=
  if n < 10 then Char.ofNat (48 + n) else Char.ofNat (87 + n)

/-- Four-digit hexadecimal rendering used for escaped control characters. -/
def hex4 (n : Nat) : String :=
  String.mk [hexDigit (n / 4096 % 16), hexDigit (n / 256 % 16),
             hexDigit (n / 16 % 16), hexDigit (n % 16)]

/-- JSON string escaping of one character, as in serde_json's serializer. -/
def jEscapeChar (c : Char) : String :=
  if c = '"' then "\\\""
  else if c = '\\' then "\\\\"
  else if c = '\n' then "\\n"
  else if c = '\r' then "\\r"
  else if c = '\t' then "\\t"
  else if c.toNat = 8 then "\\b"
  else if c.toNat = 12 then "\\f"
  else if c.toNat < 32 then "\\u" ++ hex4 c.toNat
  else String.singleton c

/-- JSON string escaping. -/
def jEscape (s : String) : String :=
  String.join (s.data.map jEscapeChar)

mutual

/-- Compact serialization of a JSON value, modelling `Value::to_string()`. -/
def jRender : JVal → String
  | .null => "null"
  | .bool b => if b then "true" else "false"
  | .num n => toString n
  | .str s => "\"" ++ jEscape s ++ "\""
  | .arr items => "[" ++ jRenderItems items ++ "]"
  | .obj fields => "\x7b" ++ jRenderFields fields ++ "\x7d"

/-- Comma-separated serialization of array elements. -/
def jRenderItems : List JVal → String
  | [] => ""
  | [x] => jRender x
  | x :: y :: xs => jRender x ++ "," ++ jRenderItems (y :: xs)

/-- Comma-separated serialization of object members. -/
def jRenderFields : List (String × JVal) → String
  | [] => ""
  | [(k, v)] => "\"" ++ jEscape k ++ "\":" ++ jRender v
  | (k, v) :: y :: xs => "\"" ++ jEscape k ++ "\":" ++ jRender v ++ "," ++ jRenderFields (y :: xs)

end

/-- Splitting a character list at every occurrence of a separator character,
modelling Rust `str::split(char)` on the underlying characters: `n`
separators yield `n + 1` pieces, so the empty input yields one empty
piece. -/
def splitCharList (sep : Char) : List Char → List (List Char)
  | [] => [[]]
  | c :: cs =>
      let r := splitCharList sep cs
      if c = sep then [] :: r
      else
        match r with
        | g :: gs => (c :: g) :: gs
        | [] => [[c]]

/-- Rust `path.split('/')` as a list of strings. -/
def splitOnChar (sep : Char) (s : String) : List String :=
  (splitCharList sep s.data).map (fun g => String.mk g)

/-- Digit-by-digit accumulation for `parseNat?`. -/
def digitsVal : List Char → Nat → Option Nat
  | [], acc => some acc
  | c :: cs, acc =>
      if c.isDigit then digitsVal cs (acc * 10 + (c.toNat - 48)) else none

/-- Rust `key.parse::<usize>()`: an optional leading plus sign followed by at
least one decimal digit (the fixed-width overflow failure is outside the
model). -/
def parseNat? (s : String) : Option Nat :=
  match s.data with
  | [] => none
  | '+' :: [] => none
  | '+' :: c :: cs => digitsVal (c :: cs) 0
  | c :: cs => digitsVal (c :: cs) 0

/-- Object member lookup (first match), modelling `Value::get::<&str>` on an
object. -/
def lookupField : List (String × JVal) → String → Option JVal
  | [], _ => none
  | (k, v) :: rest, key => if k = key then some v else lookupField rest key

/-- `current.get(*key)`: string indexing succeeds only on objects. -/
def jGetKey (v : JVal) (key : String) : Option JVal :=
  match v with
  | .obj fields => lookupField fields key
  | _ => none

/-- `current.get(idx)`: numeric indexing succeeds only on arrays. -/
def jGetIdx (v : JVal) (i : Nat) : Option JVal :=
  match v with
  | .arr items => items.get? i
  | _ => none

/-- One navigation step of `extract_single_value`: try the segment as an
object key, else parse it as an index into an array. -/
def extractStep (cur : JVal) (key : String) : Option JVal :=
  match jGetKey cur key with
  | some v => some v
  | none =>
      match parseNat? key with
      | some idx => jGetIdx cur idx
      | none => none

/-- The navigation loop of `extract_single_value` (src/json.rs): follow the
path segments, failing as soon as one does not resolve. -/
def navigate (v : JVal) : List String → Option JVal
  | [] => some v
  | k :: ks =>
      match extractStep v k with
      | some v1 => navigate v1 ks
      | none => none

/-- The final conversion of `extract_single_value`: strings, numbers and
booleans render as themselves, objects and arrays as their serialization,
null as no value. -/
def finalVal (j : JVal) : Option String :=
  match j with
  | .str s => some s
  | .num n => some (toString n)
  | .bool b => some (if b then "true" else "false")
  | .obj _ => some (jRender j)
  | .arr _ => some (jRender j)
  | .null => none

/-- `extract_single_value` (src/json.rs). -/
def extract_single_value (v : JVal) (keys : List String) : Option String :=
  match navigate v keys with
  | some cur => finalVal cur
  | none => none

/-- The accumulation loop of `extract_message` over the configured paths. -/
def extractLoop (v : JVal) : List String → List String
  | [] => []
  | p :: ps =>
      match extract_single_value v (splitOnChar '/' p) with
      | some r => r :: extractLoop v ps
      | none => extractLoop v ps

/-- `extract_message` (src/json.rs): all matched values joined by one space,
or nothing when no path matched. -/
def extract_message (v : JVal) (paths : List String) : Option String :=
  let results := extractLoop v paths
  if results.isEmpty then none else some (String.intercalate " " results)

/-- Whether a JSON value is a scalar in the sense of the specification
(a string, number or boolean). -/
def isScalar (j : JVal) : Bool :=
  match j with
  | .str _ => true
  | .num _ => true
  | .bool _ => true
  | _ => false

/-! ## Marquee renderer (src/ui.rs, `render_ticker`) -/

/-- The alignment the renderer attaches to its output paragraph. -/
inductive TextAlignment where
  | left
  | center
deriving DecidableEq, Repr

/-- One pull from `content.chars().cycle()`: the iterator state is the
remaining suffix of the current pass; an exhausted pass restarts from the
full content.  Yields nothing only for empty content. -/
def cycNext (full : List Char) : List Char → Option (Char × List Char)
  | c :: rest => some (c, rest)
  | [] =>
      match full with
      | c :: rest => some (c, rest)
      | [] => none

/-- The first loop of the marquee branch of `render_ticker`: skip glyphs of
the cyclic content whose cumulative width stays at or below the offset, then
emit the boundary glyph.  Returns the emitted glyph, the iterator suffix
after it, and its width (the initial `current_width`).  Fuel-indexed; `none`
means the fuel ran out or the content was empty. -/
def skipLoop (w : Char → Nat) (full : List Char) (offset : Nat) :
    Nat → List Char → Nat → Option (Char × List Char × Nat)
  | 0, _, _ => none
  | fuel + 1, suffix, skipped =>
      match cycNext full suffix with
      | none => none
      | some (c, rest) =>
          if skipped + w c > offset then some (c, rest, w c)
          else skipLoop w full offset fuel rest (skipped + w c)

/-- The second loop of the marquee branch of `render_ticker`: append glyphs
from the cyclic content until the accumulated width reaches the available
width.  Fuel-indexed; `none` means the fuel ran out or the content was
empty. -/
def fillLoop (w : Char → Nat) (full : List Char) (avail : Nat) :
    Nat → List Char → Nat → List Char → Option (List Char)
  | 0, _, _, _ => none
  | fuel + 1, suffix, cur, acc =>
      if avail ≤ cur then some acc
      else
        match cycNext full suffix with
        | none => none
        | some (c, rest) => fillLoop w full avail fuel rest (cur + w c) (acc ++ [c])

/-- The text the renderer windows: the overlay text during an alert, the
static text otherwise. -/
def contentTextOf (s : AppState) : String :=
  match s.interrupt_text with
  | some t => t
  | none => s.text

/-- The countdown prefix the renderer prepends: present only during an
alert. -/
def pfxOf (s : AppState) : String :=
  match s.interrupt_text with
  | some _ => countdownPrefix s.interrupt_remaining_ms
  | none => ""

/-- `render_ticker` (src/ui.rs; `App::ui` in src/app.rs inlines the same
computation): the displayed string and its alignment.  The loops of the
marquee branch carry fuel amounts that are proved sufficient below; `none`
models a computation that would not complete (fuel exhaustion, or the
division by zero width a cyclic content of zero display width would cause
in `scroll_offset % content_width`). -/
def render_ticker (w : Char → Nat) (s : AppState) (width : Nat) :
    Option (String × TextAlignment) :=
  let pfx := pfxOf s
  let content_text := contentTextOf s
  let pfx_width := strWidth w pfx
  let content_available_width := width - pfx_width
  let content_text_width := strWidth w content_text
  let alignment :=
    if s.interrupt_text.isSome then TextAlignment.left
    else if content_text_width ≤ width ∧ s.show_frame then TextAlignment.center
    else TextAlignment.left
  if content_text_width ≤ content_available_width then
    some (pfx ++ content_text, alignment)
  else
    let content := content_text ++ spacer
    let cs := content.data
    let content_width := strWidth w content
    if content_width = 0 then none
    else
      let offset := s.scroll_offset % content_width
      match skipLoop w cs offset cs.length cs 0 with
      | none => none
      | some (c, rest, cur) =>
          match fillLoop w cs content_available_width
              (cs.length * (content_available_width + 2) + 1) rest cur [c] with
          | none => none
          | some chars => some (pfx ++ String.mk chars, alignment)

/-! ## Concrete states for evaluation -/

/-- A concrete application state used to evaluate theorems on explicit
inputs. -/
def baseState : AppState :=
  { running := true
    text := "The quick brown fox jumps over the lazy dog"
    scroll_offset := 0
    last_known_width := 0
    interrupt_text := none
    interrupt_remaining_ms := 0
    paused_before_interrupt := false
    saved_scroll_offset := 0
    paused := false
    dimmed := false
    scroll_speed_ms := 100
    show_frame := true }

/-- A concrete state that is paused at a nonzero scroll position. -/
def pausedState : AppState :=
  { baseState with paused := true, scroll_offset := 7 }

/-! ## C1 -/

/-- C1: when `set_tick_rate(new_interval)` is handled, the clock's next tick
deadline becomes `last_tick_time + new_interval` clamped up to the current
time: it equals `max(now, last_tick + new_interval)`, so it is never earlier
than one new interval after the last tick and never later than
`max(now, last_tick + new_interval)`. -/
theorem set_tick_rate_deadline (last_tick new_interval now : Nat) :
    nextDeadline last_tick new_interval now = max now (last_tick + new_interval) ∧
    last_tick + new_interval ≤ nextDeadline last_tick new_interval now ∧
    nextDeadline last_tick new_interval now ≤ max now (last_tick + new_interval) := by
  simp only [nextDeadline]
  split <;> omega

/-! ## C6 -/

/-- C6 counterexample: from a tick interval of 15 ms, pressing '+' yields
5 ms, below the claimed 10 ms floor; from 1995 ms, pressing '-' yields
2005 ms, above the claimed 2000 ms cap. -/
theorem speed_keys_counterexample :
    (handle_key .plus { baseState with scroll_speed_ms := 15 }).scroll_speed_ms = 5 ∧
    (5 : Nat) < 10 ∧
    (handle_key .minus { baseState with scroll_speed_ms := 1995 }).scroll_speed_ms = 2005 ∧
    (2000 : Nat) < 2005 := by
  decide

/-- C6 amended: '+' subtracts the 10 ms step only when the interval exceeds
10 ms and '-' adds it only when the interval is below 2000 ms, leaving the
interval unchanged otherwise; consequently the results stay within
[10 ms, 2000 ms] when the current interval is a multiple of 10 in that
range, but not in general. -/
theorem speed_keys_step_guarded (s : AppState) :
    (10 < s.scroll_speed_ms →
      (handle_key .plus s).scroll_speed_ms = s.scroll_speed_ms - 10) ∧
    (s.scroll_speed_ms ≤ 10 →
      (handle_key .plus s).scroll_speed_ms = s.scroll_speed_ms) ∧
    (s.scroll_speed_ms < 2000 →
      (handle_key .minus s).scroll_speed_ms = s.scroll_speed_ms + 10) ∧
    (2000 ≤ s.scroll_speed_ms →
      (handle_key .minus s).scroll_speed_ms = s.scroll_speed_ms) ∧
    (10 ∣ s.scroll_speed_ms → 10 ≤ s.scroll_speed_ms →
      10 ≤ (handle_key .plus s).scroll_speed_ms ∧
      (handle_key .plus s).scroll_speed_ms ≤ s.scroll_speed_ms) ∧
    (10 ∣ s.scroll_speed_ms → s.scroll_speed_ms ≤ 2000 →
      (handle_key .minus s).scroll_speed_ms ≤ 2000 ∧
      s.scroll_speed_ms ≤ (handle_key .minus s).scroll_speed_ms) := by
  cases s with
  | mk running text so lkw it irm pbi sso p d ssm sf =>
      simp only [handle_key]
      refine ⟨?_, ?_, ?_, ?_, ?_, ?_⟩ <;>
        · intros
          split <;> simp_all <;> omega

/-- C6 witness: evaluating the amended theorem at a 100 ms interval — '+'
gives 90 ms and '-' gives 110 ms, both within the bounds. -/
theorem speed_keys_step_guarded_witness :
    (10 ∣ baseState.scroll_speed_ms ∧ 10 ≤ baseState.scroll_speed_ms) ∧
    (10 ≤ (handle_key .plus baseState).scroll_speed_ms ∧
      (handle_key .plus baseState).scroll_speed_ms ≤ baseState.scroll_speed_ms) :=
  ⟨by decide, (speed_keys_step_guarded baseState).2.2.2.2.1 (by decide) (by decide)⟩

/-! ## C8 -/

theorem intercalate_go_length (sep : String) :
    ∀ (as : List String) (acc : String),
      acc.length ≤ (String.intercalate.go acc sep as).length := by
  intro as
  induction as with
  | nil => intro acc; simp [String.intercalate.go]
  | cons a as ih =>
      intro acc
      calc acc.length ≤ (acc ++ sep ++ a).length := by
              simp [String.length_append]; omega
        _ ≤ (String.intercalate.go (acc ++ sep ++ a) sep as).length := ih _

theorem intercalate_cons_ne_empty (sep x : String) (xs : List String) (hx : x ≠ "") :
    String.intercalate sep (x :: xs) ≠ "" := by
  intro h
  have h1 : x.length ≤ (String.intercalate sep (x :: xs)).length := by
    simpa [String.intercalate] using intercalate_go_length sep xs x
  rw [h] at h1
  simp only [String.length] at h1
  apply hx
  cases x with
  | mk l =>
      cases l with
      | nil => rfl
      | cons c cs => simp [String.length] at h1

theorem collectContents_eq_filterMap (readFile : String → Option String) :
    ∀ paths : List String,
      collectContents readFile paths
        = ((paths.filterMap readFile).map fileText).filter (fun t => t ≠ "") := by
  intro paths
  induction paths with
  | nil => rfl
  | cons p ps ih =>
      cases h : readFile p with
      | none => simp [collectContents, h, List.filterMap_cons, ih]
      | some content =>
          by_cases hft : fileText content = "" <;>
            simp [collectContents, h, List.filterMap_cons, hft, ih]

theorem collectContents_append (readFile : String → Option String) :
    ∀ (a b : List String),
      collectContents readFile (a ++ b)
        = collectContents readFile a ++ collectContents readFile b := by
  intro a b
  induction a with
  | nil => rfl
  | cons p ps ih =>
      cases h : readFile p with
      | none => simp [collectContents, h, ih]
      | some content =>
          by_cases hft : fileText content = "" <;>
            simp [collectContents, h, hft, ih]

theorem collectContents_ne_empty (readFile : String → Option String)
    (paths : List String) :
    ∀ t ∈ collectContents readFile paths, t ≠ "" := by
  intro t ht
  rw [collectContents_eq_filterMap] at ht
  have := List.of_mem_filter ht
  simpa using this

/-- C8: the startup text is the readable files' contributions — each file's
non-empty trimmed lines joined by the line separator — joined by the file
separator in configuration order; an unreadable file anywhere in the list is
skipped while the remaining files still load; and when no file yields
content the text is the literal placeholder, so the text is never empty. -/
theorem static_text_assembly (readFile : String → Option String)
    (paths : List String) (p : String) (ps qs : List String)
    (hp : readFile p = none) :
    collectContents readFile paths
      = ((paths.filterMap readFile).map fileText).filter (fun t => t ≠ "") ∧
    (collectContents readFile paths = [] →
      buildStaticText readFile paths = placeholderText) ∧
    (collectContents readFile paths ≠ [] →
      buildStaticText readFile paths
        = String.intercalate filesSep (collectContents readFile paths)) ∧
    buildStaticText readFile paths ≠ "" ∧
    buildStaticText readFile (ps ++ p :: qs) = buildStaticText readFile (ps ++ qs) := by
  have hchar : ∀ paths' : List String,
      (collectContents readFile paths' = [] →
        buildStaticText readFile paths' = placeholderText) ∧
      (collectContents readFile paths' ≠ [] →
        buildStaticText readFile paths'
          = String.intercalate filesSep (collectContents readFile paths')) ∧
      buildStaticText readFile paths' ≠ "" := by
    intro paths'
    cases hc : collectContents readFile paths' with
    | nil =>
        refine ⟨fun _ => ?_, fun hne => absurd rfl hne, ?_⟩
        · simp [buildStaticText, hc, String.intercalate]
        · simp [buildStaticText, hc, String.intercalate, placeholderText]
    | cons x xs =>
        have hx : x ≠ "" := collectContents_ne_empty readFile paths' x (by rw [hc]; simp)
        have hne : String.intercalate filesSep (x :: xs) ≠ "" :=
          intercalate_cons_ne_empty filesSep x xs hx
        refine ⟨fun h => by simp at h, fun _ => ?_, ?_⟩
        · simp [buildStaticText, hc, hne]
        · simp [buildStaticText, hc, hne]
  refine ⟨collectContents_eq_filterMap readFile paths,
          (hchar paths).1, (hchar paths).2.1, (hchar paths).2.2, ?_⟩
  have hskip : collectContents readFile (ps ++ p :: qs)
      = collectContents readFile (ps ++ qs) := by
    rw [collectContents_append, collectContents_append]
    simp [collectContents, hp]
  simp [buildStaticText, hskip]

/-- A concrete read function for evaluating the startup assembly: two
readable files and everything else unreadable. -/
def demoRead : String → Option String :=
  fun p =>
    if p = "a.txt" then some "  alpha  \n\n beta "
    else if p = "b.txt" then some "gamma"
    else none

/-- C8 witness: evaluating the theorem on a concrete file system where the
path "missing" is unreadable, placed between two readable files. -/
theorem static_text_assembly_witness :
    demoRead "missing" = none ∧
    buildStaticText demoRead (["a.txt"] ++ "missing" :: ["b.txt"])
      = buildStaticText demoRead (["a.txt"] ++ ["b.txt"]) :=
  ⟨rfl, (static_text_assembly demoRead ["a.txt", "missing", "b.txt"]
          "missing" ["a.txt"] ["b.txt"] rfl).2.2.2.2⟩

/-! ## State machine lemmas for the alert lifecycle -/

theorem applyTicks_nil (w : Char → Nat) (s : AppState) :
    applyTicks w [] s = s := rfl

theorem applyTicks_cons (w : Char → Nat) (tw : Nat) (ws : List Nat) (s : AppState) :
    applyTicks w (tw :: ws) s = applyTicks w ws (stepEvent w (.tick tw) s) := rfl


/-- Ticks never start an alert: an absent overlay stays absent. -/
theorem ticks_keep_no_alert (w : Char → Nat) (ws : List Nat) :
    ∀ s : AppState, s.interrupt_text = none →
      (applyTicks w ws s).interrupt_text = none := by
  induction ws with
  | nil => intro s h; exact h
  | cons tw ws ih =>
      intro s h
      rw [applyTicks_cons]
      refine ih _ ?_
      cases s with
      | mk running text so lkw it irm pbi sso p d ssm sf =>
          cases h
          cases p <;> simp [stepEvent, on_tick] <;> split <;> split <;> rfl

/-- A non-expiring tick during an alert decrements the countdown by the tick
interval and touches neither the overlay text, the pause flag nor the saved
pre-alert fields. -/
theorem on_tick_alert_decrement (w : Char → Nat) (tw : Nat) (s : AppState)
    (t : String) (ht : s.interrupt_text = some t)
    (hgt : s.scroll_speed_ms < s.interrupt_remaining_ms) :
    (on_tick w tw s).interrupt_text = some t ∧
    (on_tick w tw s).interrupt_remaining_ms
      = s.interrupt_remaining_ms - s.scroll_speed_ms ∧
    (on_tick w tw s).paused = s.paused ∧
    (on_tick w tw s).paused_before_interrupt = s.paused_before_interrupt ∧
    (on_tick w tw s).saved_scroll_offset = s.saved_scroll_offset ∧
    (on_tick w tw s).scroll_speed_ms = s.scroll_speed_ms := by
  cases s with
  | mk running text so lkw it irm pbi sso p d ssm sf =>
      cases ht
      simp only [AppState.interrupt_remaining_ms, AppState.scroll_speed_ms] at hgt
      simp only [on_tick]
      split_ifs <;>
        first
          | exact ⟨rfl, rfl, rfl, rfl, rfl, rfl⟩
          | exact absurd hgt (by assumption)

/-- An expiring tick during an alert clears the overlay and restores the
saved pause flag and scroll offset. -/
theorem on_tick_alert_expire (w : Char → Nat) (tw : Nat) (s : AppState)
    (t : String) (ht : s.interrupt_text = some t)
    (hle : s.interrupt_remaining_ms ≤ s.scroll_speed_ms) :
    (on_tick w tw s).interrupt_text = none ∧
    (on_tick w tw s).paused = s.paused_before_interrupt ∧
    (on_tick w tw s).scroll_offset = s.saved_scroll_offset := by
  cases s with
  | mk running text so lkw it irm pbi sso p d ssm sf =>
      cases ht
      simp only [AppState.interrupt_remaining_ms, AppState.scroll_speed_ms] at hle
      simp only [on_tick]
      split_ifs <;>
        first
          | exact ⟨rfl, rfl, rfl⟩
          | exact absurd (by assumption) (by omega)

/-- Enter during an alert clears the overlay and restores the saved pause
flag and scroll offset. -/
theorem handle_key_enter_alert (s : AppState) (t : String)
    (ht : s.interrupt_text = some t) :
    (handle_key .enter s).interrupt_text = none ∧
    (handle_key .enter s).paused = s.paused_before_interrupt ∧
    (handle_key .enter s).scroll_offset = s.saved_scroll_offset := by
  cases s with
  | mk running text so lkw it irm pbi sso p d ssm sf =>
      cases ht
      simp [handle_key]

/-- While the overlay survives a run of ticks, the machine stays unpaused
and the saved pre-alert fields and the tick interval are untouched. -/
theorem alert_ticks_invariant (w : Char → Nat) (ws : List Nat) :
    ∀ s : AppState,
      s.interrupt_text.isSome = true → s.paused = false →
      (applyTicks w ws s).interrupt_text.isSome = true →
      (applyTicks w ws s).paused = false ∧
      (applyTicks w ws s).paused_before_interrupt = s.paused_before_interrupt ∧
      (applyTicks w ws s).saved_scroll_offset = s.saved_scroll_offset ∧
      (applyTicks w ws s).scroll_speed_ms = s.scroll_speed_ms := by
  induction ws with
  | nil => intro s _ hp _; exact ⟨hp, rfl, rfl, rfl⟩
  | cons tw ws ih =>
      intro s hsome hp halive
      rw [applyTicks_cons] at halive ⊢
      obtain ⟨t, ht⟩ := Option.isSome_iff_exists.mp hsome
      have hstep : stepEvent w (.tick tw) s = on_tick w tw s := by
        simp only [stepEvent]
        rw [hp]
        simp
      rw [hstep] at halive ⊢
      by_cases hgt : s.scroll_speed_ms < s.interrupt_remaining_ms
      · obtain ⟨h1, _, h3, h4, h5, h6⟩ := on_tick_alert_decrement w tw s t ht hgt
        have hrec := ih (on_tick w tw s) (by rw [h1]; rfl) (by rw [h3]; exact hp) halive
        exact ⟨hrec.1, by rw [hrec.2.1, h4], by rw [hrec.2.2.1, h5],
               by rw [hrec.2.2.2, h6]⟩
      · obtain ⟨h1, _, _⟩ := on_tick_alert_expire w tw s t ht (by omega)
        have hnone := ticks_keep_no_alert w ws (on_tick w tw s) h1
        rw [hnone] at halive
        cases halive

/-- Ending an alive alert — by a tick whose decrement would exhaust the
countdown, or by Enter — restores the saved pause flag and scroll offset. -/
theorem alert_end_restores (w : Char → Nat) (tw : Nat) (x : AppState)
    (t : String) (ht : x.interrupt_text = some t) (hp : x.paused = false) :
    (x.interrupt_remaining_ms ≤ x.scroll_speed_ms →
      (stepEvent w (.tick tw) x).paused = x.paused_before_interrupt ∧
      (stepEvent w (.tick tw) x).scroll_offset = x.saved_scroll_offset) ∧
    ((stepEvent w (.key .enter) x).paused = x.paused_before_interrupt ∧
     (stepEvent w (.key .enter) x).scroll_offset = x.saved_scroll_offset) := by
  have hstep : stepEvent w (.tick tw) x = on_tick w tw x := by
    simp only [stepEvent]
    rw [hp]
    simp
  constructor
  · intro hle
    obtain ⟨_, h2, h3⟩ := on_tick_alert_expire w tw x t ht hle
    rw [hstep]
    exact ⟨h2, h3⟩
  · obtain ⟨_, h2, h3⟩ := handle_key_enter_alert x t ht
    exact ⟨h2, h3⟩

/-! ## C2 -/

/-- C2: a `Message` captures the current `paused`/`scroll_offset` pair; after
any run of ticks that leaves the overlay alive, ending the alert — by a tick
whose decrement would drop the countdown to zero or below, or by an Enter
key press — restores exactly the captured pair. -/
theorem alert_restores_state (w : Char → Nat) (s : AppState) (msg : String)
    (ws : List Nat) (tw : Nat)
    (halive : (applyTicks w ws (stepEvent w (.message msg) s)).interrupt_text.isSome
      = true) :
    ((applyTicks w ws (stepEvent w (.message msg) s)).interrupt_remaining_ms ≤
        (applyTicks w ws (stepEvent w (.message msg) s)).scroll_speed_ms →
      (stepEvent w (.tick tw)
          (applyTicks w ws (stepEvent w (.message msg) s))).paused = s.paused ∧
      (stepEvent w (.tick tw)
          (applyTicks w ws (stepEvent w (.message msg) s))).scroll_offset
        = s.scroll_offset) ∧
    ((stepEvent w (.key .enter)
        (applyTicks w ws (stepEvent w (.message msg) s))).paused = s.paused ∧
     (stepEvent w (.key .enter)
        (applyTicks w ws (stepEvent w (.message msg) s))).scroll_offset
       = s.scroll_offset) := by
  have hinv := alert_ticks_invariant w ws (stepEvent w (.message msg) s)
    rfl rfl halive
  have hpbi : (applyTicks w ws (stepEvent w (.message msg) s)).paused_before_interrupt
      = s.paused := hinv.2.1
  have hsso : (applyTicks w ws (stepEvent w (.message msg) s)).saved_scroll_offset
      = s.scroll_offset := hinv.2.2.1
  obtain ⟨t, ht⟩ := Option.isSome_iff_exists.mp halive
  have hend := alert_end_restores w tw
    (applyTicks w ws (stepEvent w (.message msg) s)) t ht hinv.1
  exact ⟨fun hle => ⟨((hend.1 hle).1).trans hpbi, ((hend.1 hle).2).trans hsso⟩,
         ⟨(hend.2.1).trans hpbi, (hend.2.2).trans hsso⟩⟩

/-- C2 witness: from a paused state at offset 7, a message followed by two
ticks leaves the overlay alive, and Enter then restores paused = true and
offset 7. -/
theorem alert_restores_state_witness :
    (applyTicks charWidthAscii [40, 40]
        (stepEvent charWidthAscii (.message "ALERT") pausedState)).interrupt_text.isSome
      = true ∧
    ((stepEvent charWidthAscii (.key .enter)
        (applyTicks charWidthAscii [40, 40]
          (stepEvent charWidthAscii (.message "ALERT") pausedState))).paused
      = pausedState.paused ∧
     (stepEvent charWidthAscii (.key .enter)
        (applyTicks charWidthAscii [40, 40]
          (stepEvent charWidthAscii (.message "ALERT") pausedState))).scroll_offset
       = pausedState.scroll_offset) :=
  ⟨by decide,
   (alert_restores_state charWidthAscii pausedState "ALERT" [40, 40] 50 (by decide)).2⟩

/-! ## C3 -/

/-- C3 counterexample: starting paused at offset 7, a first message saves
the pair (true, 7); a second message arriving during the alert re-saves
(false, 0) — the current alert-time values — so the saved pair no longer
holds the pre-first-alert values, contradicting the claim. -/
theorem second_message_counterexample :
    pausedState.paused = true ∧
    pausedState.scroll_offset = 7 ∧
    (stepEvent charWidthAscii (.message "first") pausedState).paused_before_interrupt
      = true ∧
    (stepEvent charWidthAscii (.message "first") pausedState).saved_scroll_offset
      = 7 ∧
    (stepEvent charWidthAscii (.message "second")
        (stepEvent charWidthAscii (.message "first") pausedState)).paused_before_interrupt
      = false ∧
    (stepEvent charWidthAscii (.message "second")
        (stepEvent charWidthAscii (.message "first") pausedState)).saved_scroll_offset
      = 0 := by
  decide

/-- C3 amended: a second `Message` during an alert replaces the overlay's
text and resets its countdown to 9000 ms, but also re-saves the pause flag
and scroll offset from the current (alert-time) state: the saved pause flag
becomes the current one — false whenever the overlay survived the
intervening ticks, since alerts force-unpause — and the saved offset becomes
the alert's current scroll offset, so the pre-first-alert pair is lost. -/
theorem second_message_resaves (w : Char → Nat) (s : AppState)
    (msg1 msg2 : String) (ws : List Nat) :
    (stepEvent w (.message msg2)
        (applyTicks w ws (stepEvent w (.message msg1) s))).interrupt_text
      = some msg2 ∧
    (stepEvent w (.message msg2)
        (applyTicks w ws (stepEvent w (.message msg1) s))).interrupt_remaining_ms
      = 9000 ∧
    (stepEvent w (.message msg2)
        (applyTicks w ws (stepEvent w (.message msg1) s))).paused_before_interrupt
      = (applyTicks w ws (stepEvent w (.message msg1) s)).paused ∧
    (stepEvent w (.message msg2)
        (applyTicks w ws (stepEvent w (.message msg1) s))).saved_scroll_offset
      = (applyTicks w ws (stepEvent w (.message msg1) s)).scroll_offset ∧
    ((applyTicks w ws (stepEvent w (.message msg1) s)).interrupt_text.isSome = true →
      (stepEvent w (.message msg2)
          (applyTicks w ws (stepEvent w (.message msg1) s))).paused_before_interrupt
        = false) := by
  refine ⟨rfl, rfl, rfl, rfl, fun halive => ?_⟩
  have hinv := alert_ticks_invariant w ws (stepEvent w (.message msg1) s)
    rfl rfl halive
  exact hinv.1

/-- C3 witness: evaluating the amended theorem after one intervening tick —
the re-saved pause flag is false even though the pre-first-alert state was
paused. -/
theorem second_message_resaves_witness :
    (applyTicks charWidthAscii [40]
        (stepEvent charWidthAscii (.message "first") pausedState)).interrupt_text.isSome
      = true ∧
    (stepEvent charWidthAscii (.message "second")
        (applyTicks charWidthAscii [40]
          (stepEvent charWidthAscii (.message "first") pausedState))).paused_before_interrupt
      = false :=
  ⟨by decide,
   (second_message_resaves charWidthAscii pausedState "first" "second" [40]).2.2.2.2
     (by decide)⟩

/-! ## C4 -/

/-- A concrete reachable state with an active alert and `paused = true`:
space was pressed during the alert. -/
def alertPausedState : AppState :=
  stepEvent charWidthAscii (.key .space)
    (stepEvent charWidthAscii (.message "breaking news") baseState)

/-- C4 counterexample: with the overlay present and `paused = true` (space
was pressed during the alert), a tick changes nothing — the countdown stays
at 9000 ms instead of decrementing by the 100 ms tick interval, so the
decrement does not happen regardless of the paused flag. -/
theorem tick_during_alert_counterexample :
    alertPausedState.interrupt_text.isSome = true ∧
    alertPausedState.paused = true ∧
    alertPausedState.scroll_speed_ms = 100 ∧
    stepEvent charWidthAscii (.tick 80) alertPausedState = alertPausedState ∧
    (stepEvent charWidthAscii (.tick 80) alertPausedState).interrupt_remaining_ms
      = 9000 := by
  decide

/-- C4 amended: while the overlay is present, a tick with the paused flag
false decrements the countdown by the tick interval, clearing the overlay
and restoring the saved pause flag and offset when the decrement would reach
zero or below; but a tick with the paused flag true changes nothing — and
the flag can be true during an alert, because space still toggles it. -/
theorem tick_during_alert (w : Char → Nat) (tw : Nat) (s : AppState)
    (t : String) (ht : s.interrupt_text = some t) :
    ((s.paused = false ∧ s.scroll_speed_ms < s.interrupt_remaining_ms) →
      (stepEvent w (.tick tw) s).interrupt_remaining_ms
        = s.interrupt_remaining_ms - s.scroll_speed_ms ∧
      (stepEvent w (.tick tw) s).interrupt_text = some t) ∧
    ((s.paused = false ∧ s.interrupt_remaining_ms ≤ s.scroll_speed_ms) →
      (stepEvent w (.tick tw) s).interrupt_text = none ∧
      (stepEvent w (.tick tw) s).paused = s.paused_before_interrupt ∧
      (stepEvent w (.tick tw) s).scroll_offset = s.saved_scroll_offset) ∧
    (s.paused = true → stepEvent w (.tick tw) s = s) := by
  refine ⟨fun ⟨hp, hgt⟩ => ?_, fun ⟨hp, hle⟩ => ?_, fun hp => ?_⟩
  · have hstep : stepEvent w (.tick tw) s = on_tick w tw s := by
      simp only [stepEvent]
      rw [hp]
      simp
    obtain ⟨h1, h2, _⟩ := on_tick_alert_decrement w tw s t ht hgt
    rw [hstep]
    exact ⟨h2, h1⟩
  · have hstep : stepEvent w (.tick tw) s = on_tick w tw s := by
      simp only [stepEvent]
      rw [hp]
      simp
    obtain ⟨h1, h2, h3⟩ := on_tick_alert_expire w tw s t ht hle
    rw [hstep]
    exact ⟨h1, h2, h3⟩
  · simp only [stepEvent]
    rw [hp]
    simp

/-- C4 witness: with the overlay present and not paused, a tick decrements
the countdown from 9000 ms to 8900 ms. -/
theorem tick_during_alert_witness :
    (stepEvent charWidthAscii (.message "breaking news") baseState).interrupt_text
      = some "breaking news" ∧
    ((stepEvent charWidthAscii (.message "breaking news") baseState).paused = false ∧
      (stepEvent charWidthAscii (.message "breaking news") baseState).scroll_speed_ms
        < (stepEvent charWidthAscii
            (.message "breaking news") baseState).interrupt_remaining_ms) ∧
    (stepEvent charWidthAscii (.tick 80)
        (stepEvent charWidthAscii (.message "breaking news") baseState)).interrupt_remaining_ms
      = 8900 := by
  refine ⟨by decide, by decide, ?_⟩
  have h := (tick_during_alert charWidthAscii 80
    (stepEvent charWidthAscii (.message "breaking news") baseState)
    "breaking news" (by decide)).1 (by decide)
  rw [h.1]
  decide

/-! ## C9 -/

theorem extractLoop_eq_filterMap (v : JVal) :
    ∀ paths : List String,
      extractLoop v paths
        = paths.filterMap (fun p => extract_single_value v (splitOnChar '/' p)) := by
  intro paths
  induction paths with
  | nil => rfl
  | cons p ps ih =>
      cases h : extract_single_value v (splitOnChar '/' p) <;>
        simp [extractLoop, h, List.filterMap_cons, ih]

/-- C9 counterexample: with payload `{"a": {}}` and path list `["a"]`, the
path matches an object — not a scalar — yet the extraction returns the
object's serialization instead of nothing, contradicting the claim that only
scalar matches are returned. -/
theorem extract_message_counterexample :
    navigate (JVal.obj [("a", JVal.obj [])]) ["a"] = some (JVal.obj []) ∧
    isScalar (JVal.obj []) = false ∧
    extract_message (JVal.obj [("a", JVal.obj [])]) ["a"] = some "\x7b\x7d" ∧
    (extract_message (JVal.obj [("a", JVal.obj [])]) ["a"]).isSome = true := by
  have hr : jRender (JVal.obj []) = "\x7b\x7d" := by
    simp [jRender, jRenderFields]
  have hm : extract_message (JVal.obj [("a", JVal.obj [])]) ["a"]
      = some (jRender (JVal.obj [])) := rfl
  refine ⟨rfl, rfl, ?_, ?_⟩
  · rw [hm, hr]
  · rw [hm]
    rfl

/-- C9 amended: the extraction returns the values matched by the paths in
path-list order, joined by a single space — strings, numbers and booleans as
their value, objects and arrays as their JSON serialization — and returns
nothing exactly when every path fails to resolve or resolves to null; a
resolved value contributes nothing if and only if it is null. -/
theorem extract_message_characterization (v : JVal) (paths : List String) :
    extract_message v paths
      = (if paths.filterMap (fun p => extract_single_value v (splitOnChar '/' p)) = []
         then none
         else some (String.intercalate " "
           (paths.filterMap (fun p => extract_single_value v (splitOnChar '/' p))))) ∧
    (∀ j : JVal, finalVal j = none ↔ j = JVal.null) := by
  constructor
  · rw [extract_message, extractLoop_eq_filterMap]
    cases paths.filterMap (fun p => extract_single_value v (splitOnChar '/' p)) <;> simp
  · intro j
    cases j <;> simp [finalVal]

/-! ## C5 -/

theorem listWidth_nil (w : Char → Nat) : listWidth w [] = 0 := rfl

theorem listWidth_cons (w : Char → Nat) (c : Char) (cs : List Char) :
    listWidth w (c :: cs) = w c + listWidth w cs := by
  simp [listWidth]

/-- C5: the rendered window depends on the scroll offset only through its
residue modulo the display width of the cyclic content (content text plus
spacer): shifting the offset by that width produces the identical output,
prefix, window and alignment included. -/
theorem render_offset_mod_invariant (w : Char → Nat) (s : AppState) (width : Nat) :
    render_ticker w
        { s with scroll_offset :=
            s.scroll_offset + strWidth w (contentTextOf s ++ spacer) } width
      = render_ticker w s width := by
  cases s with
  | mk running text so lkw it irm pbi sso p d ssm sf =>
      cases it with
      | none =>
          simp only [render_ticker, contentTextOf, pfxOf, Nat.add_mod_right]
      | some t =>
          simp only [render_ticker, contentTextOf, pfxOf, Nat.add_mod_right]

/-! ## Termination of the marquee loops (C7, C10) -/

/-- The skip loop succeeds within one pass whenever the offset is below the
remaining width of the current pass: it returns the boundary glyph, which has
positive width, and a strictly shorter remaining suffix. -/
theorem skipLoop_success (w : Char → Nat) (full : List Char) (offset : Nat) :
    ∀ (suffix : List Char) (fuel skipped : Nat),
      suffix.length ≤ fuel → skipped ≤ offset →
      offset < skipped + listWidth w suffix →
      ∃ c rest, skipLoop w full offset fuel suffix skipped = some (c, rest, w c) ∧
        0 < w c ∧ rest.length < suffix.length := by
  intro suffix
  induction suffix with
  | nil =>
      intro fuel skipped _ hsk hoff
      rw [listWidth_nil] at hoff
      omega
  | cons c cs ih =>
      intro fuel skipped hfuel hsk hoff
      cases fuel with
      | zero => simp at hfuel
      | succ f =>
          by_cases hc : offset < skipped + w c
          · refine ⟨c, cs, ?_, by omega, by simp⟩
            simp [skipLoop, cycNext, hc]
          · have hle : skipped + w c ≤ offset := by omega
            rw [listWidth_cons] at hoff
            obtain ⟨c1, rest, heq, hwc, hlen⟩ :=
              ih f (skipped + w c) (by simpa using hfuel) hle (by omega)
            refine ⟨c1, rest, ?_, hwc, by simp; omega⟩
            simpa [skipLoop, cycNext, hc] using heq

/-- The fill loop succeeds whenever the accumulated width plus the width of
the remaining pass plus a number of full passes covered by the fuel reaches
the available width. -/
theorem fillLoop_success (w : Char → Nat) (full : List Char) (avail : Nat) :
    ∀ (k : Nat) (suffix : List Char) (fuel cur : Nat) (acc : List Char),
      full ≠ [] →
      suffix.length + k * full.length + 1 ≤ fuel →
      avail ≤ cur + listWidth w suffix + k * listWidth w full →
      ∃ out, fillLoop w full avail fuel suffix cur acc = some out := by
  intro k
  induction k with
  | zero =>
      intro suffix
      induction suffix with
      | nil =>
          intro fuel cur acc _ hfuel havail
          cases fuel with
          | zero => omega
          | succ f =>
              rw [listWidth_nil] at havail
              exact ⟨acc, by simp [fillLoop]; omega⟩
      | cons c cs ih =>
          intro fuel cur acc hfull hfuel havail
          cases fuel with
          | zero => simp at hfuel
          | succ f =>
              by_cases hcur : avail ≤ cur
              · exact ⟨acc, by simp [fillLoop, hcur]⟩
              · rw [listWidth_cons] at havail
                obtain ⟨out, heq⟩ := ih f (cur + w c) (acc ++ [c]) hfull
                  (by simp at hfuel ⊢; omega) (by omega)
                refine ⟨out, ?_⟩
                simpa [fillLoop, cycNext, hcur] using heq
  | succ k outerIH =>
      intro suffix
      induction suffix with
      | nil =>
          intro fuel cur acc hfull hfuel havail
          cases fuel with
          | zero => omega
          | succ f =>
              by_cases hcur : avail ≤ cur
              · exact ⟨acc, by simp [fillLoop, hcur]⟩
              · cases hfl : full with
                | nil => exact absurd hfl hfull
                | cons hd tl =>
                    rw [listWidth_nil] at havail
                    have hw : listWidth w full = w hd + listWidth w tl := by
                      rw [hfl, listWidth_cons]
                    have hlen : full.length = tl.length + 1 := by
                      rw [hfl]; simp
                    have h1 : (k + 1) * full.length
                        = k * full.length + tl.length + 1 := by
                      rw [hlen]; ring
                    have h2 : (k + 1) * listWidth w full
                        = k * listWidth w full + w hd + listWidth w tl := by
                      rw [hw]; ring
                    obtain ⟨out, heq⟩ := outerIH tl f (cur + w hd) (acc ++ [hd])
                      hfull (by simp at hfuel; omega) (by omega)
                    refine ⟨out, ?_⟩
                    have hcy : cycNext (hd :: tl) [] = some (hd, tl) := rfl
                    simp only [fillLoop, if_neg hcur, hcy]
                    rw [← hfl]
                    exact heq
      | cons c cs ih =>
          intro fuel cur acc hfull hfuel havail
          cases fuel with
          | zero => simp at hfuel
          | succ f =>
              by_cases hcur : avail ≤ cur
              · exact ⟨acc, by simp [fillLoop, hcur]⟩
              · rw [listWidth_cons] at havail
                obtain ⟨out, heq⟩ := ih f (cur + w c) (acc ++ [c]) hfull
                  (by simp at hfuel ⊢; omega) (by omega)
                refine ⟨out, ?_⟩
                simpa [fillLoop, cycNext, hcur] using heq

/-- The marquee computation always completes when the spacer has positive
display width: the skip and fill fuels given in `render_ticker` are
sufficient. -/
theorem render_ticker_isSome (w : Char → Nat) (s : AppState) (width : Nat)
    (hsp : 0 < strWidth w spacer) :
    (render_ticker w s width).isSome = true := by
  by_cases hfit : strWidth w (contentTextOf s)
      ≤ width - strWidth w (pfxOf s)
  · simp [render_ticker, hfit]
  · have hcw : 0 < strWidth w (contentTextOf s ++ spacer) := by
      rw [strWidth_append]
      omega
    have hcs : listWidth w (contentTextOf s ++ spacer).data
        = strWidth w (contentTextOf s ++ spacer) := rfl
    have hne : (contentTextOf s ++ spacer).data ≠ [] := by
      intro hnil
      rw [← hcs, hnil, listWidth_nil] at hcw
      omega
    obtain ⟨c, rest, heq, hwc, hlen⟩ :=
      skipLoop_success w (contentTextOf s ++ spacer).data
        (s.scroll_offset % strWidth w (contentTextOf s ++ spacer))
        (contentTextOf s ++ spacer).data
        (contentTextOf s ++ spacer).data.length 0 le_rfl (Nat.zero_le _)
        (by rw [hcs]; simpa using Nat.mod_lt _ hcw)
    have hkcw : width - strWidth w (pfxOf s)
        ≤ w c + listWidth w rest + (width - strWidth w (pfxOf s))
          * listWidth w (contentTextOf s ++ spacer).data := by
      have : width - strWidth w (pfxOf s)
          ≤ (width - strWidth w (pfxOf s))
            * listWidth w (contentTextOf s ++ spacer).data := by
        refine Nat.le_mul_of_pos_right _ ?_
        rw [hcs]
        exact hcw
      omega
    have hkfuel : rest.length
        + (width - strWidth w (pfxOf s)) * (contentTextOf s ++ spacer).data.length + 1
        ≤ (contentTextOf s ++ spacer).data.length
          * ((width - strWidth w (pfxOf s)) + 2) + 1 := by
      have h1 : (contentTextOf s ++ spacer).data.length
          * ((width - strWidth w (pfxOf s)) + 2)
          = (width - strWidth w (pfxOf s)) * (contentTextOf s ++ spacer).data.length
            + 2 * (contentTextOf s ++ spacer).data.length := by
        ring
      omega
    obtain ⟨out, heq2⟩ := fillLoop_success w (contentTextOf s ++ spacer).data
      (width - strWidth w (pfxOf s))
      (width - strWidth w (pfxOf s)) rest
      ((contentTextOf s ++ spacer).data.length
        * ((width - strWidth w (pfxOf s)) + 2) + 1)
      (w c) [c] hne hkfuel hkcw
    simp only [render_ticker]
    rw [if_neg hfit, if_neg (by omega), heq]
    simp only []
    rw [heq2]
    rfl

/-! ## C10 -/

/-- C10: the marquee windowing computation is total — for every glyph-width
function giving the spacer positive width (as the real Unicode widths do),
every text, offset and available width, both cyclic loops complete within
the provided fuel and a window is produced. -/
theorem marquee_windowing_total (w : Char → Nat) (s : AppState) (width : Nat)
    (hsp : 0 < strWidth w spacer) :
    (render_ticker w s width).isSome = true :=
  render_ticker_isSome w s width hsp

/-- C10 witness: a concrete scrolling render completes. -/
theorem marquee_windowing_total_witness :
    0 < strWidth charWidthAscii spacer ∧
    (render_ticker charWidthAscii pausedState 10).isSome = true :=
  ⟨by decide, marquee_windowing_total charWidthAscii pausedState 10 (by decide)⟩

/-! ## C7 -/

/-- C7 counterexample: rendering the base state (static text of positive
width) with an available width of zero completes without panicking but emits
the first glyph of the text — a non-empty window containing one content
glyph, contradicting the claimed empty window. -/
theorem render_zero_width_counterexample :
    render_ticker charWidthAscii baseState 0
      = some ("T", TextAlignment.left) ∧
    ("T" : String) ≠ "" := by
  constructor
  · decide
  · decide

/-- C7 amended: rendering with an available width of zero does not panic —
the computation always completes — but the window is empty only when the
content itself has display width zero (then the output is the prefix plus
the unwindowed content); when the content has positive width the skip loop
still pushes one boundary glyph, so the output is the prefix followed by
exactly one content glyph of positive width. -/
theorem render_zero_width (w : Char → Nat) (s : AppState)
    (hsp : 0 < strWidth w spacer) :
    (render_ticker w s 0).isSome = true ∧
    (strWidth w (contentTextOf s) = 0 →
      ∃ a, render_ticker w s 0 = some (pfxOf s ++ contentTextOf s, a)) ∧
    (0 < strWidth w (contentTextOf s) →
      ∃ c a, render_ticker w s 0 = some (pfxOf s ++ String.mk [c], a)
        ∧ 0 < w c) := by
  refine ⟨render_ticker_isSome w s 0 hsp, fun hct => ?_, fun hct => ?_⟩
  · simp only [render_ticker]
    rw [if_pos (by rw [hct]; exact Nat.zero_le _)]
    exact ⟨_, rfl⟩
  · have hfit : ¬ (strWidth w (contentTextOf s)
        ≤ 0 - strWidth w (pfxOf s)) := by
      rw [Nat.zero_sub]
      omega
    have hcw : 0 < strWidth w (contentTextOf s ++ spacer) := by
      rw [strWidth_append]
      omega
    have hcs : listWidth w (contentTextOf s ++ spacer).data
        = strWidth w (contentTextOf s ++ spacer) := rfl
    obtain ⟨c, rest, heq, hwc, hlen⟩ :=
      skipLoop_success w (contentTextOf s ++ spacer).data
        (s.scroll_offset % strWidth w (contentTextOf s ++ spacer))
        (contentTextOf s ++ spacer).data
        (contentTextOf s ++ spacer).data.length 0 le_rfl (Nat.zero_le _)
        (by rw [hcs]; simpa using Nat.mod_lt _ hcw)
    have hfill : fillLoop w (contentTextOf s ++ spacer).data
        (0 - strWidth w (pfxOf s))
        ((contentTextOf s ++ spacer).data.length
          * ((0 - strWidth w (pfxOf s)) + 2) + 1) rest (w c) [c]
        = some [c] := by
      simp [fillLoop, Nat.zero_sub]
    refine ⟨c, ?_, ?_, hwc⟩
    · exact if s.interrupt_text.isSome then TextAlignment.left
        else if strWidth w (contentTextOf s) ≤ 0 ∧ s.show_frame
          then TextAlignment.center else TextAlignment.left
    · simp only [render_ticker]
      rw [if_neg hfit, if_neg (by omega), heq]
      simp only []
      rw [hfill]

/-- C7 witness: at width zero over the base state the amended theorem yields
a one-glyph window. -/
theorem render_zero_width_witness :
    (0 < strWidth charWidthAscii spacer ∧
      0 < strWidth charWidthAscii (contentTextOf baseState)) ∧
    (∃ c a, render_ticker charWidthAscii baseState 0
        = some (pfxOf baseState ++ String.mk [c], a) ∧ 0 < charWidthAscii c) :=
  ⟨⟨by decide, by decide⟩,
   (render_zero_width charWidthAscii baseState (by decide)).2.2 (by decide)⟩
